import Mathlib

set_option maxRecDepth 100000

/-!
Verification of `src/scripts/external_link_checker.py` (an MkDocs hook).

The source is a single `on_page_content(html, page, config, files)` hook:
it runs `re.sub` with the pattern

  `<a\s+[^>]*href=["']([^"']+)["'][^>]*>`

over `html`, and the replacement callback `replace_external_link` parses
the captured `href` with `urllib.parse.urlparse`, and for links whose
`netloc` is non-empty, not `localhost`/`127.0.0.1`, with a non-empty
`site_url` whose own `netloc` differs, inserts
`target="_blank" ` and `rel="noopener noreferrer" ` in front of every
occurrence of `href=` in the matched tag (each insertion guarded by a
substring test on the current tag text).

Strings are embedded as `List Char`.  Python's `re` backtracking on this
one fixed pattern, `str.replace`, the `in` substring test and the
`urlsplit` netloc extraction (CPython 3.10 semantics, including the
`ValueError("Invalid IPv6 URL")` raised on a netloc containing `[`
without `]` or vice versa) are embedded as executable functions below.
-/

/-- The one kind of exception the source can raise: `urllib.parse.urlsplit`
raises `ValueError("Invalid IPv6 URL")` on a netloc with mismatched
square brackets; `re.sub` propagates it out of `on_page_content`. -/
inductive PyErr : Type
  | invalidIPv6URL : PyErr
deriving DecidableEq, Repr

/-- Python regex `\s` on the characters this source can meet: the ASCII
whitespace characters plus the Unicode whitespace code points matched by
`\s` in a `str` pattern. -/
def pyWhitespace (c : Char) : Bool :=
  c = ' ' || c = '\t' || c = '\n' || c = '\r' || c = '\x0b' || c = '\x0c' ||
  c = '\x1c' || c = '\x1d' || c = '\x1e' || c = '\x1f' || c = '\x85' ||
  c = '\xa0' || c = ' ' ||
  (' ' ≤ c && c ≤ ' ') ||
  c = ' ' || c = ' ' || c = ' ' || c = ' ' || c = '　'

/-- The character class `["']` of the pattern. -/
def quoteChar (c : Char) : Bool :=
  c = '"' || c = Char.ofNat 39

/-- `scheme_chars` of `urllib.parse`: letters, digits, `+`, `-`, `.`. -/
def isSchemeChar (c : Char) : Bool :=
  c.isAlpha || c.isDigit || c = '+' || c = '-' || c = '.'

/-- Python `sub in s` for lists (`c ∈ netloc` on a single character). -/
def memB (a : Char) : List Char → Bool
  | [] => false
  | c :: t => if c = a then true else memB a t

/-- If `pat` is the leading segment of `cs`, return the remainder. -/
def dropPat? : List Char → List Char → Option (List Char)
  | [], cs => some cs
  | _, [] => none
  | p :: ps, c :: cs => if p = c then dropPat? ps cs else none

/-- Python `pat in s` substring test (`'target=' in full_match` etc.). -/
def containsSub : List Char → List Char → Bool
  | [], pat => pat.isEmpty
  | c :: t, pat => (dropPat? pat (c :: t)).isSome || containsSub t pat

/-- One fuel-indexed step list for Python `str.replace(old, new)`:
replace every non-overlapping occurrence, left to right, without
rescanning the replacement text.  `fuel` is the length of the scanned
list; the callers' `old` is always the non-empty `href=`. -/
def replaceAllGo (old new : List Char) : Nat → List Char → List Char
  | _, [] => []
  | 0, cs => cs
  | Nat.succ fuel, c :: t =>
    match dropPat? old (c :: t) with
    | some rest => new ++ replaceAllGo old new fuel rest
    | none => c :: replaceAllGo old new fuel t

/-- Python `s.replace(old, new)`. -/
def replaceAll (s old new : List Char) : List Char :=
  replaceAllGo old new s.length s

/-- `url.find(':')` / scheme recognition of `urlsplit`: when the first
colon is at a positive index and everything before it is in
`scheme_chars`, the scheme (and the colon) is cut off. -/
def schemeSplit (url : List Char) : List Char :=
  match url.findIdx? (fun c => c = ':') with
  | some i =>
    if 0 < i ∧ (url.take i).all isSchemeChar then url.drop (i + 1) else url
  | none => url

/-- Mismatched-square-bracket test of `urlsplit` (raises
`ValueError("Invalid IPv6 URL")` when true). -/
def bracketBad (netloc : List Char) : Bool :=
  (memB '[' netloc && !(memB ']' netloc)) ||
  (memB ']' netloc && !(memB '[' netloc))

/-- `urlparse(url).netloc`, CPython 3.10 `urlsplit` semantics: remove
tab/CR/LF, cut a leading scheme, and when the remainder starts with
`//` take the netloc up to the first `/`, `?` or `#`, raising on
mismatched square brackets; otherwise the netloc is empty. -/
def pyNetloc (url : List Char) : Except PyErr (List Char) :=
  let u := url.filter (fun c => !(c = '\t') && !(c = '\r') && !(c = '\n'))
  match schemeSplit u with
  | '/' :: '/' :: rest =>
    let netloc := rest.takeWhile (fun c => !(c = '/') && !(c = '?') && !(c = '#'))
    if bracketBad netloc then Except.error PyErr.invalidIPv6URL
    else Except.ok netloc
  | _ => Except.ok []

/-- The tail `href=["']([^"']+)["'][^>]*>` of the pattern, anchored at
the head of `ds`: literal `href=`, an opening quote, a non-empty maximal
run of non-quote characters (the capture), a closing quote of either
kind, then everything up to and including the first following `>`.
Both quantifiers are forced: `[^"']+` cannot cross a quote and `[^>]*`
cannot cross `>`, and each is followed by the complementary class.
Returns `(consumed, capture, rest)` with `consumed ++ rest = ds`. -/
def matchHrefTail (ds : List Char) : Option (List Char × List Char × List Char) :=
  match ds with
  | h0 :: h1 :: h2 :: h3 :: h4 :: q :: es =>
    if h0 = 'h' ∧ h1 = 'r' ∧ h2 = 'e' ∧ h3 = 'f' ∧ h4 = '=' ∧ quoteChar q then
      if es.takeWhile (fun c => !(quoteChar c)) = [] then none
      else
        match es.dropWhile (fun c => !(quoteChar c)) with
        | [] => none
        | q2 :: es3 =>
          match es3.dropWhile (fun c => !(c = '>')) with
          | [] => none
          | g :: rest =>
            some (h0 :: h1 :: h2 :: h3 :: h4 :: q ::
                    (es.takeWhile (fun c => !(quoteChar c)) ++
                      q2 :: (es3.takeWhile (fun c => !(c = '>')) ++ [g])),
                  es.takeWhile (fun c => !(quoteChar c)), rest)
    else none
  | _ => none

/-- Greedy `[^>]*` before `href=`: the backtracking engine commits to the
largest offset `p` such that the characters before `p` are all `≠ '>'`
and the tail pattern matches at `p`.  Walking `ds`, prefer the deepest
success, stop at the first `>`.  Returns `(pre, consumed, capture, rest)`
with `pre ++ consumed ++ rest = ds` and `pre` free of `>`. -/
def lastHrefMatch (ds : List Char) :
    Option (List Char × List Char × List Char × List Char) :=
  match ds with
  | [] => none
  | c :: tail =>
    if c = '>' then none
    else
      match lastHrefMatch tail with
      | some (pre, consumed, cap, rest) => some (c :: pre, consumed, cap, rest)
      | none =>
        match matchHrefTail (c :: tail) with
        | some (consumed, cap, rest) => some ([], consumed, cap, rest)
        | none => none

/-- A match of the full pattern `<a\s+[^>]*href=["']([^"']+)["'][^>]*>`
anchored at the head of `cs`: literal `<a`, a maximal non-empty run of
whitespace (shorter runs give the same matches, the following `[^>]*`
absorbs whitespace), then `lastHrefMatch` for the greedy remainder.
Returns `(matched, capture, rest)` with `matched ++ rest = cs`. -/
def tryMatch (cs : List Char) : Option (List Char × List Char × List Char) :=
  match cs with
  | c0 :: c1 :: c2 :: tail =>
    if c0 = '<' ∧ c1 = 'a' ∧ pyWhitespace c2 then
      match lastHrefMatch ((c2 :: tail).dropWhile pyWhitespace) with
      | some (pre, consumed, cap, rest) =>
        some (c0 :: c1 :: ((c2 :: tail).takeWhile pyWhitespace ++ pre ++ consumed),
              cap, rest)
      | none => none
    else none
  | _ => none

/-- `re.sub(link_pattern, repl, ·)`: scan left to right, try the pattern
at every position, feed each match through `repl` (which may raise) and
resume after the match.  `fuel` bounds the scan; `annotate` passes the
input length, which suffices since every match consumes at least one
character. -/
def subGo (repl : List Char → List Char → Except PyErr (List Char)) :
    Nat → List Char → Except PyErr (List Char)
  | _, [] => Except.ok []
  | 0, cs => Except.ok cs
  | Nat.succ fuel, c :: tail =>
    match tryMatch (c :: tail) with
    | some (m, cap, rest) =>
      match repl m cap with
      | Except.error e => Except.error e
      | Except.ok r =>
        match subGo repl fuel rest with
        | Except.error e => Except.error e
        | Except.ok out => Except.ok (r ++ out)
    | none =>
      match subGo repl fuel tail with
      | Except.error e => Except.error e
      | Except.ok out => Except.ok (c :: out)

def localhostL : List Char := "localhost".toList
def loop127L : List Char := "127.0.0.1".toList
def hrefEq : List Char := "href=".toList
def targetEq : List Char := "target=".toList
def relEq : List Char := "rel=".toList
def targetIns : List Char := "target=\"_blank\" href=".toList
def relIns : List Char := "rel=\"noopener noreferrer\" href=".toList

/-- The two guarded insertions of the source (lines 31-34): prepend
`target="_blank" ` to every `href=` occurrence unless the tag already
contains `target=`, then prepend `rel="noopener noreferrer" ` to every
`href=` occurrence unless the (possibly updated) tag contains `rel=`. -/
def annotateTag (full_match : List Char) : List Char :=
  let fm1 := if containsSub full_match targetEq then full_match
             else replaceAll full_match hrefEq targetIns
  if containsSub fm1 relEq then fm1
  else replaceAll fm1 hrefEq relIns

/-- `replace_external_link` of the source: parse the captured href; when
its netloc is non-empty and is neither `localhost` nor `127.0.0.1`, and
`site_url` is non-empty and parses to a different netloc, annotate the
tag; in every other case return the matched tag unchanged. -/
def replace_external_link (site_url full_match capture : List Char) :
    Except PyErr (List Char) :=
  match pyNetloc capture with
  | Except.error e => Except.error e
  | Except.ok netloc =>
    if netloc ≠ [] ∧ netloc ≠ localhostL ∧ netloc ≠ loop127L then
      if site_url ≠ [] then
        match pyNetloc site_url with
        | Except.error e => Except.error e
        | Except.ok site_domain =>
          if netloc ≠ site_domain then Except.ok (annotateTag full_match)
          else Except.ok full_match
      else Except.ok full_match
    else Except.ok full_match

/-- The core transformation (spec section 4.1 calls it
`annotate(html, siteURL)`): `re.sub` of the link pattern with
`replace_external_link` over the page HTML. -/
def annotate (html site_url : List Char) : Except PyErr (List Char) :=
  subGo (replace_external_link site_url) html.length html

def siteUrlKey : String := "site_url"

/-- `on_page_content(html, page, config, files)`: reads only
`config.get('site_url', '')` and returns the substituted HTML; `page`
and `files` are accepted and ignored. -/
def on_page_content {α β : Type} (html : List Char) (page : α)
    (config : String → Option String) (files : β) :
    Except PyErr (List Char) :=
  annotate html ((config siteUrlKey).getD "").toList

-- Concrete inputs and outputs used by the claims (spec section 8).

def docsL : List Char := "https://docs.example.com".toList
def exExternal : List Char := "<a href=\"https://other.org/x\">x</a>".toList
def annExternal : List Char :=
  "<a target=\"_blank\" rel=\"noopener noreferrer\" href=\"https://other.org/x\">x</a>".toList
def exLoopPort : List Char := "<a href=\"http://localhost:8000/x\">l</a>".toList
def annLoopPort : List Char :=
  "<a target=\"_blank\" rel=\"noopener noreferrer\" href=\"http://localhost:8000/x\">l</a>".toList
def exLocalhost : List Char := "<a href=\"http://localhost/x\">l</a>".toList
def exLoopback : List Char := "<a href=\"http://127.0.0.1/x\">l</a>".toList
def exNofollow : List Char :=
  "<a href=\"https://other.org/x\" rel=\"nofollow\">x</a>".toList
def annNofollow : List Char :=
  "<a target=\"_blank\" href=\"https://other.org/x\" rel=\"nofollow\">x</a>".toList
def exSelf : List Char := "<a href=\"https://docs.example.com/page\">p</a>".toList
def exRelative : List Char := "<a href=\"../page/\">p</a>".toList
def exBadIPv6 : List Char := "<a href=\"http://[\">x</a>".toList
def exHrefTwice : List Char := "<a href=\"https://other.org/?href=1\">x</a>".toList
def annHrefTwice : List Char :=
  "<a target=\"_blank\" rel=\"noopener noreferrer\" href=\"https://other.org/?target=\"_blank\" rel=\"noopener noreferrer\" href=1\">x</a>".toList

-- Idempotence counterexample: the quoted href value contains `href=`
-- and `>`, and a `target` attribute follows the href attribute.
def exIdem : List Char :=
  "<a href=\"//x.com/?href=a>b\" target=\"_x\">x</a>".toList
def exIdem1 : List Char :=
  "<a rel=\"noopener noreferrer\" href=\"//x.com/?rel=\"noopener noreferrer\" href=a>b\" target=\"_x\">x</a>".toList
def exIdem2 : List Char :=
  "<a rel=\"noopener noreferrer\" target=\"_blank\" href=\"//x.com/?rel=\"noopener noreferrer\" target=\"_blank\" href=a>b\" target=\"_x\">x</a>".toList

-- Concatenation of the section-8 example inputs and of their annotated
-- outputs (for the amended idempotence statement).
def exSuite : List Char :=
  exLoopPort ++ exExternal ++ exNofollow ++ exSelf ++ exRelative
def annSuite : List Char :=
  annLoopPort ++ annExternal ++ annNofollow ++ exSelf ++ exRelative

-- Concrete witness inputs.
def mBothAttrs : List Char :=
  "<a target=\"_self\" rel=\"nofollow\" href=\"https://other.org/x\">".toList
def mSelfTag : List Char := "<a href=\"https://docs.example.com/page\">".toList
def selfCap : List Char := "https://docs.example.com/page".toList
def domainD : List Char := "docs.example.com".toList
def mRelTag : List Char := "<a href=\"../page/\">".toList
def relCap : List Char := "../page/".toList
def siteStr : String := "https://docs.example.com"
def otherStr : String := "unrelated"
def cfgA : String → Option String :=
  fun k => if k = siteUrlKey then some siteStr else none
def cfgB : String → Option String :=
  fun k => if k = siteUrlKey then some siteStr else some otherStr

-- The two directive texts: each insertion string of the source is
-- literally directive ++ `href=` (see `targetIns`, `relIns`).
def targetDir : List Char := "target=\"_blank\" ".toList
def relDir : List Char := "rel=\"noopener noreferrer\" ".toList

-- The matched tag of the href-occurs-twice example.
def mHrefTwiceTag : List Char := "<a href=\"https://other.org/?href=1\">".toList

/-- Interleave: `joinSep sep first [s1, ..., sn] = first ++ sep ++ s1 ++
sep ++ ... ++ sep ++ sn`. -/
def joinSep (sep : List Char) : List Char → List (List Char) → List Char
  | first, [] => first
  | first, seg :: segs => first ++ sep ++ joinSep sep seg segs

/-- Decomposition of a list at the non-overlapping left-to-right
occurrences of `old`, by the same scan as `replaceAllGo`: returns the
segment before the first occurrence and the segments after each
occurrence. -/
def splitPatGo (old : List Char) : Nat → List Char → List Char × List (List Char)
  | _, [] => ([], [])
  | 0, cs => (cs, [])
  | Nat.succ fuel, c :: t =>
    match dropPat? old (c :: t) with
    | some rest =>
      ([], (splitPatGo old fuel rest).1 :: (splitPatGo old fuel rest).2)
    | none =>
      (c :: (splitPatGo old fuel t).1, (splitPatGo old fuel t).2)

/-- The occurrence decomposition of `s` along pattern `old`. -/
def splitPat (s old : List Char) : List Char × List (List Char) :=
  splitPatGo old s.length s

/-- Checker mirroring `subGo`: every match the scan meets has a capture
satisfying `p`. -/
def matchesOK (p : List Char → Bool) : Nat → List Char → Bool
  | _, [] => true
  | 0, _ => true
  | Nat.succ fuel, c :: tail =>
    match tryMatch (c :: tail) with
    | some (_, cap, rest) => p cap && matchesOK p fuel rest
    | none => matchesOK p fuel tail

/-- No square bracket occurs in the list (then `urlsplit` cannot raise). -/
def noBrk (cs : List Char) : Bool := cs.all (fun c => !(c = '[') && !(c = ']'))

/-- `urlparse(cap).netloc` does not raise. -/
def netlocOK (cap : List Char) : Bool :=
  match pyNetloc cap with
  | Except.ok _ => true
  | Except.error _ => false

/-- The href is exempt from annotation whatever `site_url` is: its netloc
parses and is empty or a loopback alias. -/
def exemptB (cap : List Char) : Bool :=
  match pyNetloc cap with
  | Except.ok n => decide (n = [] ∨ n = localhostL ∨ n = loop127L)
  | Except.error _ => false

/-! ## Structural lemmas about the matcher and the substitution engine -/

theorem dropPat?_eq : ∀ (pat cs rest : List Char),
    dropPat? pat cs = some rest → pat ++ rest = cs := by
  intro pat
  induction pat with
  | nil => intro cs rest h; simp only [dropPat?, Option.some.injEq] at h; simp [h]
  | cons p ps ih =>
    intro cs rest h
    cases cs with
    | nil => simp [dropPat?] at h
    | cons c t =>
      simp only [dropPat?] at h
      split at h
      · next hpc => simpa [hpc] using ih t rest h
      · exact absurd h (by simp)

theorem containsSub_nil_of_ne {old : List Char} (h : old ≠ []) :
    containsSub [] old = false := by
  cases old with
  | nil => exact absurd rfl h
  | cons p ps => rfl

/-- A lead match of `pat` survives extending the list on the right. -/
theorem dropPat?_append : ∀ (pat a r b : List Char),
    dropPat? pat a = some r → dropPat? pat (a ++ b) = some (r ++ b) := by
  intro pat
  induction pat with
  | nil =>
    intro a r b h
    simp only [dropPat?, Option.some.injEq] at h ⊢
    rw [h]
  | cons p ps ih =>
    intro a r b h
    cases a with
    | nil => simp [dropPat?] at h
    | cons c t =>
      simp only [dropPat?, List.cons_append] at h ⊢
      split at h
      · next hpc => rw [if_pos hpc]; exact ih t r b h
      · exact absurd h (by simp)

theorem joinSep_cons_first (sep : List Char) (c : Char) (f : List Char) :
    ∀ segs : List (List Char), joinSep sep (c :: f) segs = c :: joinSep sep f segs := by
  intro segs
  cases segs with
  | nil => rfl
  | cons s ss => simp [joinSep, List.cons_append]

/-- Correctness of the occurrence decomposition: it reassembles to the
input, its segments are free of the pattern, and `replaceAllGo`
(Python's `str.replace`) is exactly the reassembly with the replacement
text substituted at every occurrence. -/
theorem splitPatGo_spec (old new : List Char) (hold : old ≠ []) :
    ∀ (fuel : Nat) (cs : List Char), cs.length ≤ fuel →
      joinSep old (splitPatGo old fuel cs).1 (splitPatGo old fuel cs).2 = cs ∧
      containsSub (splitPatGo old fuel cs).1 old = false ∧
      (∀ seg ∈ (splitPatGo old fuel cs).2, containsSub seg old = false) ∧
      replaceAllGo old new fuel cs =
        joinSep new (splitPatGo old fuel cs).1 (splitPatGo old fuel cs).2 := by
  intro fuel
  induction fuel with
  | zero =>
    intro cs hlen
    have hcs : cs = [] := List.length_eq_zero.mp (Nat.le_zero.mp hlen)
    subst hcs
    exact ⟨rfl, containsSub_nil_of_ne hold,
      by intro seg hseg; simp [splitPatGo] at hseg, rfl⟩
  | succ fuel ih =>
    intro cs hlen
    cases cs with
    | nil =>
      exact ⟨rfl, containsSub_nil_of_ne hold,
        by intro seg hseg; simp [splitPatGo] at hseg, rfl⟩
    | cons c t =>
      cases hd : dropPat? old (c :: t) with
      | some rest =>
        have happ : old ++ rest = c :: t := dropPat?_eq old (c :: t) rest hd
        have hrl : rest.length ≤ fuel := by
          have h1 : 0 < old.length := List.length_pos.mpr hold
          have h2 : old.length + rest.length = t.length + 1 := by
            have := congrArg List.length happ
            simpa [List.length_append] using this
          have h3 : t.length + 1 ≤ fuel + 1 := by simpa using hlen
          omega
        obtain ⟨ih1, ih2, ih3, ih4⟩ := ih rest hrl
        refine ⟨?_, ?_, ?_, ?_⟩
        · simp only [splitPatGo, hd, joinSep, List.nil_append]
          rw [ih1]
          exact happ
        · simp only [splitPatGo, hd]
          exact containsSub_nil_of_ne hold
        · simp only [splitPatGo, hd]
          intro seg hseg
          rcases List.mem_cons.mp hseg with h1 | h1
          · rw [h1]; exact ih2
          · exact ih3 seg h1
        · simp only [splitPatGo, replaceAllGo, hd, joinSep, List.nil_append]
          rw [ih4]
      | none =>
        have htl : t.length ≤ fuel := by simpa using hlen
        obtain ⟨ih1, ih2, ih3, ih4⟩ := ih t htl
        refine ⟨?_, ?_, ?_, ?_⟩
        · simp only [splitPatGo, hd]
          rw [joinSep_cons_first, ih1]
        · simp only [splitPatGo, hd, containsSub, Bool.or_eq_false_iff]
          refine ⟨?_, ih2⟩
          cases hdf : dropPat? old (c :: (splitPatGo old fuel t).1) with
          | none => rfl
          | some r =>
            exfalso
            cases hsegs : (splitPatGo old fuel t).2 with
            | nil =>
              rw [hsegs] at ih1
              simp only [joinSep] at ih1
              rw [ih1] at hdf
              rw [hdf] at hd
              exact absurd hd (by simp)
            | cons s ss =>
              have hext := dropPat?_append old (c :: (splitPatGo old fuel t).1) r
                (old ++ joinSep old s ss) hdf
              have hre : (c :: (splitPatGo old fuel t).1) ++
                  (old ++ joinSep old s ss) = c :: t := by
                rw [hsegs] at ih1
                simp only [joinSep] at ih1
                simp only [List.cons_append, List.append_assoc]
                rw [← List.append_assoc]
                rw [ih1]
              rw [hre] at hext
              rw [hext] at hd
              exact absurd hd (by simp)
        · simp only [splitPatGo, hd]
          exact ih3
        · simp only [splitPatGo, replaceAllGo, hd]
          rw [ih4, joinSep_cons_first]

theorem matchHrefTail_spec (ds consumed cap rest : List Char)
    (h : matchHrefTail ds = some (consumed, cap, rest)) :
    consumed ++ rest = ds ∧ ∀ x ∈ cap, x ∈ ds := by
  unfold matchHrefTail at h
  split at h
  case _ h0 h1 h2 h3 h4 q es =>
    split at h
    case isFalse => exact absurd h (by simp)
    case isTrue hcond =>
      split at h
      case isTrue => exact absurd h (by simp)
      case isFalse hcap =>
        split at h
        case _ heq1 => exact absurd h (by simp)
        case _ q2 es3 heq1 =>
          split at h
          case _ heq2 => exact absurd h (by simp)
          case _ g rest2 heq2 =>
            simp only [Option.some.injEq, Prod.mk.injEq] at h
            obtain ⟨hcons, hcap2, hrest⟩ := h
            rw [← hcons, ← hcap2, ← hrest]
            have hes : es.takeWhile (fun c => !(quoteChar c)) ++ (q2 :: es3) = es := by
              rw [← heq1]; exact List.takeWhile_append_dropWhile _ _
            have hes3 : es3.takeWhile (fun c => !(c = '>')) ++ (g :: rest2) = es3 := by
              rw [← heq2]; exact List.takeWhile_append_dropWhile _ _
            constructor
            · simp only [List.cons_append, List.cons.injEq, true_and,
                List.append_assoc, List.singleton_append, List.nil_append]
              rw [hes3]
              exact hes
            · intro x hx
              have hx' : x ∈ es := (List.takeWhile_sublist _).subset hx
              simp [hx']
  case _ => exact absurd h (by simp)

theorem lastHrefMatch_spec : ∀ (ds pre consumed cap rest : List Char),
    lastHrefMatch ds = some (pre, consumed, cap, rest) →
    pre ++ consumed ++ rest = ds ∧ ∀ x ∈ cap, x ∈ ds := by
  intro ds
  induction ds with
  | nil => intro pre consumed cap rest h; simp [lastHrefMatch] at h
  | cons c tail ih =>
    intro pre consumed cap rest h
    unfold lastHrefMatch at h
    split at h
    · exact absurd h (by simp)
    · next hc =>
      split at h
      case _ pre2 consumed2 cap2 rest2 heq =>
        simp only [Option.some.injEq, Prod.mk.injEq] at h
        obtain ⟨h1, h2, h3, h4⟩ := h
        rw [← h1, ← h2, ← h3, ← h4]
        obtain ⟨hsplit, hmem⟩ := ih pre2 consumed2 cap2 rest2 heq
        constructor
        · simp only [List.cons_append]; rw [hsplit]
        · intro x hx; exact List.mem_cons_of_mem _ (hmem x hx)
      case _ heq =>
        split at h
        case _ consumed2 cap2 rest2 heq2 =>
          simp only [Option.some.injEq, Prod.mk.injEq] at h
          obtain ⟨h1, h2, h3, h4⟩ := h
          rw [← h1, ← h2, ← h3, ← h4]
          obtain ⟨hsplit, hmem⟩ := matchHrefTail_spec _ _ _ _ heq2
          exact ⟨by simpa using hsplit, hmem⟩
        case _ => exact absurd h (by simp)

theorem tryMatch_spec (cs m cap rest : List Char)
    (h : tryMatch cs = some (m, cap, rest)) :
    m ++ rest = cs ∧ ∀ x ∈ cap, x ∈ cs := by
  unfold tryMatch at h
  split at h
  case _ c0 c1 c2 tail =>
    split at h
    case isFalse => exact absurd h (by simp)
    case isTrue hcond =>
      split at h
      case _ pre2 consumed2 cap2 rest2 heq =>
        simp only [Option.some.injEq, Prod.mk.injEq] at h
        obtain ⟨h1, h2, h3⟩ := h
        rw [← h1, ← h2, ← h3]
        obtain ⟨hsplit, hmem⟩ := lastHrefMatch_spec _ _ _ _ _ heq
        have hwd : (c2 :: tail).takeWhile pyWhitespace ++
            (c2 :: tail).dropWhile pyWhitespace = c2 :: tail :=
          List.takeWhile_append_dropWhile _ _
        constructor
        · simp only [List.cons_append, List.cons.injEq, true_and,
            List.append_assoc]
          rw [List.append_assoc] at hsplit
          rw [hsplit, hwd]
        · intro x hx
          have hx2 : x ∈ (c2 :: tail).dropWhile pyWhitespace := hmem x hx
          have hx3 : x ∈ c2 :: tail := (List.dropWhile_sublist _).subset hx2
          simp [hx3]
      case _ => exact absurd h (by simp)
  case _ => exact absurd h (by simp)

/-- When the replacement callback returns every met match unchanged, the
substitution is the identity. -/
theorem subGo_id (repl : List Char → List Char → Except PyErr (List Char))
    (p : List Char → Bool)
    (hp : ∀ m cap, p cap = true → repl m cap = Except.ok m) :
    ∀ (fuel : Nat) (cs : List Char), matchesOK p fuel cs = true →
      subGo repl fuel cs = Except.ok cs := by
  intro fuel
  induction fuel with
  | zero =>
    intro cs _
    cases cs with
    | nil => rfl
    | cons c t => rfl
  | succ n ih =>
    intro cs h
    cases cs with
    | nil => rfl
    | cons c tail =>
      rw [matchesOK] at h
      rw [subGo]
      cases htm : tryMatch (c :: tail) with
      | none =>
        rw [htm] at h
        simp only [ih tail h]
      | some trip =>
        obtain ⟨m, cap, rest⟩ := trip
        rw [htm] at h
        simp only [Bool.and_eq_true] at h
        simp only [hp m cap h.1, ih rest h.2]
        exact congrArg Except.ok (tryMatch_spec _ _ _ _ htm).1

/-- When the replacement callback succeeds on every met match, the
substitution succeeds. -/
theorem subGo_ok (repl : List Char → List Char → Except PyErr (List Char))
    (p : List Char → Bool)
    (hp : ∀ m cap, p cap = true → ∃ r, repl m cap = Except.ok r) :
    ∀ (fuel : Nat) (cs : List Char), matchesOK p fuel cs = true →
      ∃ out, subGo repl fuel cs = Except.ok out := by
  intro fuel
  induction fuel with
  | zero =>
    intro cs _
    cases cs with
    | nil => exact ⟨[], rfl⟩
    | cons c t => exact ⟨c :: t, rfl⟩
  | succ n ih =>
    intro cs h
    cases cs with
    | nil => exact ⟨[], rfl⟩
    | cons c tail =>
      rw [matchesOK] at h
      rw [subGo]
      cases htm : tryMatch (c :: tail) with
      | none =>
        rw [htm] at h
        obtain ⟨out, hout⟩ := ih tail h
        exact ⟨c :: out, by simp [hout]⟩
      | some trip =>
        obtain ⟨m, cap, rest⟩ := trip
        rw [htm] at h
        simp only [Bool.and_eq_true] at h
        obtain ⟨r, hr⟩ := hp m cap h.1
        obtain ⟨out, hout⟩ := ih rest h.2
        exact ⟨r ++ out, by simp [hr, hout]⟩

/-! ## URL-parsing lemmas -/

theorem memB_iff {a : Char} : ∀ {l : List Char}, memB a l = true ↔ a ∈ l := by
  intro l
  induction l with
  | nil => simp [memB]
  | cons c t ih =>
    simp only [memB]
    by_cases hc : c = a
    · subst hc; simp
    · rw [if_neg hc, ih]
      constructor
      · exact fun h => List.mem_cons_of_mem _ h
      · intro h
        rcases List.mem_cons.mp h with h1 | h1
        · exact absurd h1.symm hc
        · exact h1

theorem noBrk_sub {l1 l2 : List Char} (hsub : ∀ x ∈ l1, x ∈ l2)
    (h : noBrk l2 = true) : noBrk l1 = true := by
  simp only [noBrk, List.all_eq_true] at *
  intro x hx
  exact h x (hsub x hx)

theorem schemeSplit_sub {u : List Char} : ∀ x ∈ schemeSplit u, x ∈ u := by
  intro x hx
  unfold schemeSplit at hx
  split at hx
  · split at hx
    · exact List.drop_subset _ _ hx
    · exact hx
  · exact hx

theorem pyNetloc_ok_of_noBrk {url : List Char} (h : noBrk url = true) :
    ∃ n, pyNetloc url = Except.ok n := by
  simp only [pyNetloc]
  split
  case _ rest heq =>
    have hmemrest : ∀ x ∈ rest, x ∈ url := by
      intro x hx
      have h1 : x ∈ schemeSplit (url.filter
          (fun c => !(c = '\t') && !(c = '\r') && !(c = '\n'))) := by
        rw [heq]; simp [hx]
      have h2 := schemeSplit_sub _ h1
      exact (List.mem_filter.mp h2).1
    have hnet : ∀ x ∈ rest.takeWhile
        (fun c => !(c = '/') && !(c = '?') && !(c = '#')), x ∈ url := by
      intro x hx
      exact hmemrest x ((List.takeWhile_sublist _).subset hx)
    have hnob : noBrk (rest.takeWhile
        (fun c => !(c = '/') && !(c = '?') && !(c = '#'))) = true :=
      noBrk_sub hnet h
    have hbad : bracketBad (rest.takeWhile
        (fun c => !(c = '/') && !(c = '?') && !(c = '#'))) = false := by
      unfold bracketBad
      have hl : memB '[' (rest.takeWhile
          (fun c => !(c = '/') && !(c = '?') && !(c = '#'))) = false := by
        by_contra hcon
        have := memB_iff.mp (Bool.of_not_eq_false hcon)
        have := (List.all_eq_true.mp hnob) _ this
        simp at this
      have hr : memB ']' (rest.takeWhile
          (fun c => !(c = '/') && !(c = '?') && !(c = '#'))) = false := by
        by_contra hcon
        have := memB_iff.mp (Bool.of_not_eq_false hcon)
        have := (List.all_eq_true.mp hnob) _ this
        simp at this
      rw [hl, hr]
      rfl
    rw [hbad]
    exact ⟨_, rfl⟩
  case _ => exact ⟨[], rfl⟩

theorem netlocOK_of_noBrk {url : List Char} (h : noBrk url = true) :
    netlocOK url = true := by
  obtain ⟨n, hn⟩ := pyNetloc_ok_of_noBrk h
  unfold netlocOK
  rw [hn]

/-! ## Behaviour of `replace_external_link` on the exempt cases -/

/-- With an empty `site_url` the callback never annotates: it returns
every matched tag unchanged (provided the href parses at all). -/
theorem repl_id_of_empty_site (m cap : List Char) (h : netlocOK cap = true) :
    replace_external_link [] m cap = Except.ok m := by
  unfold netlocOK at h
  cases hn : pyNetloc cap with
  | error e => rw [hn] at h; simp at h
  | ok n =>
    simp only [replace_external_link, hn]
    split
    · rw [if_neg (by simp)]
    · rfl

/-- A tag whose href has an empty or loopback netloc is returned
unchanged for every `site_url`. -/
theorem repl_id_of_exempt (site m cap : List Char) (h : exemptB cap = true) :
    replace_external_link site m cap = Except.ok m := by
  unfold exemptB at h
  cases hn : pyNetloc cap with
  | error e => rw [hn] at h; simp at h
  | ok n =>
    rw [hn] at h
    have hd : n = [] ∨ n = localhostL ∨ n = loop127L := of_decide_eq_true h
    simp only [replace_external_link, hn]
    rw [if_neg (by tauto)]

/-- A tag whose href has an empty netloc is returned unchanged for every
`site_url` (spec: links with no authority component are never
annotated). -/
theorem repl_id_of_empty_netloc (site m cap : List Char)
    (h : pyNetloc cap = Except.ok []) :
    replace_external_link site m cap = Except.ok m := by
  simp only [replace_external_link, h]
  rw [if_neg (by simp)]

/-- The callback succeeds whenever the captured href and the site URL
both parse. -/
theorem repl_ok (site m cap : List Char) (h1 : netlocOK cap = true)
    (h2 : netlocOK site = true) :
    ∃ r, replace_external_link site m cap = Except.ok r := by
  unfold netlocOK at h1 h2
  cases hn : pyNetloc cap with
  | error e => rw [hn] at h1; simp at h1
  | ok n =>
    cases hs : pyNetloc site with
    | error e => rw [hs] at h2; simp at h2
    | ok d =>
      simp only [replace_external_link, hn, hs]
      split
      · split
        · split
          · exact ⟨_, rfl⟩
          · exact ⟨m, rfl⟩
        · exact ⟨m, rfl⟩
      · exact ⟨m, rfl⟩

/-- In bracket-free HTML every match the scan meets has a parseable
href: the capture is a sub-collection of the input. -/
theorem matchesOK_netlocOK_of_noBrk :
    ∀ (fuel : Nat) (cs : List Char), noBrk cs = true →
      matchesOK netlocOK fuel cs = true := by
  intro fuel
  induction fuel with
  | zero => intro cs _; cases cs <;> rfl
  | succ n ih =>
    intro cs h
    cases cs with
    | nil => rfl
    | cons c tail =>
      rw [matchesOK]
      cases htm : tryMatch (c :: tail) with
      | none =>
        exact ih tail (noBrk_sub (fun x hx => List.mem_cons_of_mem _ hx) h)
      | some trip =>
        obtain ⟨m, cap, rest⟩ := trip
        obtain ⟨hsplit, hmem⟩ := tryMatch_spec _ _ _ _ htm
        have hrest : ∀ x ∈ rest, x ∈ c :: tail := by
          intro x hx
          rw [← hsplit]
          simp [hx]
        simp only [Bool.and_eq_true]
        exact ⟨netlocOK_of_noBrk (noBrk_sub hmem h),
          ih rest (noBrk_sub hrest h)⟩

/-! ## Claims -/

/-- C1, counterexample: with `siteURL = ""` the external anchor
`<a href="https://other.org/x">x</a>` is returned unchanged and its tag
contains no `target=`, contradicting the claim that with empty `siteURL`
authority-bearing links are annotated.  Annotation happens only inside
the `if site_url:` branch of the source. -/
theorem C1_counterexample :
    annotate exExternal [] = Except.ok exExternal ∧
      containsSub exExternal targetEq = false :=
  ⟨rfl, rfl⟩

/-- C1 (amended): when `siteURL` is the empty string no anchor is
annotated at all: on every html without square brackets (brackets could
make URL parsing raise), `annotate html ""` returns the input
unchanged. -/
theorem C1_empty_site_no_annotation (html : List Char)
    (h : noBrk html = true) : annotate html [] = Except.ok html :=
  subGo_id (replace_external_link []) netlocOK
    (fun m cap hc => repl_id_of_empty_site m cap hc)
    html.length html (matchesOK_netlocOK_of_noBrk html.length html h)

/-- C1, witness for the amended theorem at the external-link example. -/
theorem C1_witness :
    noBrk exExternal = true ∧ annotate exExternal [] = Except.ok exExternal :=
  ⟨rfl, C1_empty_site_no_annotation exExternal rfl⟩

/-- C2, counterexample: on `<a href="http://[">x</a>` the captured href
`http://[` reaches `urlparse`, whose netloc `[` has a `[` without `]`,
so `ValueError("Invalid IPv6 URL")` is raised and propagates out of the
substitution: `annotate` does signal an error. -/
theorem C2_counterexample :
    annotate exBadIPv6 [] = Except.error PyErr.invalidIPv6URL :=
  rfl

/-- C2 (amended): `annotate` terminates on every input, and it returns a
string whenever neither the html nor the siteURL contains a square
bracket; every other parse failure degrades to an empty authority and
the anchor is left unannotated.  An href (or consulted siteURL) whose
authority has mismatched square brackets raises
`ValueError("Invalid IPv6 URL")`, which propagates. -/
theorem C2_total_without_brackets (html site : List Char)
    (h1 : noBrk html = true) (h2 : noBrk site = true) :
    ∃ out, annotate html site = Except.ok out :=
  subGo_ok (replace_external_link site) netlocOK
    (fun m cap hc => repl_ok site m cap hc (netlocOK_of_noBrk h2))
    html.length html (matchesOK_netlocOK_of_noBrk html.length html h1)

/-- C2, witness for the amended theorem at the external-link example. -/
theorem C2_witness :
    noBrk exExternal = true ∧ noBrk docsL = true ∧
      ∃ out, annotate exExternal docsL = Except.ok out :=
  ⟨rfl, rfl, C2_total_without_brackets exExternal docsL rfl rfl⟩

/-- C3, counterexample: `annotate` is not idempotent.  On
`<a href="//x.com/?href=a>b" target="_x">x</a>` (href value containing
`href=` and `>`, `target` attribute after the href) with
`siteURL = "https://docs.example.com"`, the first pass inserts only the
`rel` directive, but in front of both `href=` occurrences; on the second
pass the greedy match ends at the `>` inside the old href value, the
matched tag no longer contains `target=`, and `target="_blank"` is
inserted: the second output differs from the first. -/
theorem C3_counterexample :
    annotate exIdem docsL = Except.ok exIdem1 ∧
      annotate exIdem1 docsL = Except.ok exIdem2 ∧ exIdem1 ≠ exIdem2 :=
  ⟨rfl, rfl, by decide⟩

/-- C3 (amended): re-annotation is stable on the spec's section-8
example inputs: on their concatenation, a second `annotate` run fixes
the first run's output, since every annotated tag then contains both
`target=` and `rel=`.  Idempotence fails in general (see the
counterexample). -/
theorem C3_idempotent_on_examples :
    annotate exSuite docsL = Except.ok annSuite ∧
      annotate annSuite docsL = Except.ok annSuite :=
  ⟨rfl, rfl⟩

/-- C4, counterexample: the loopback test compares the whole netloc, and
`localhost:8000` is not in `['localhost', '127.0.0.1']`, so with
`siteURL = "https://docs.example.com"` the anchor
`<a href="http://localhost:8000/x">l</a>` IS annotated, not left
unchanged. -/
theorem C4_counterexample :
    annotate exLoopPort docsL = Except.ok annLoopPort ∧
      annLoopPort ≠ exLoopPort :=
  ⟨rfl, by decide⟩

/-- C4 (amended): the loopback exemption applies exactly when the
authority is the literal `localhost` or `127.0.0.1` (no port): anchors
with those authorities are left byte-for-byte unchanged for every
`siteURL`; an authority with an explicit port such as `localhost:8000`
is treated like any other external authority. -/
theorem C4_loopback_exact (site : List Char) :
    annotate exLocalhost site = Except.ok exLocalhost ∧
      annotate exLoopback site = Except.ok exLoopback :=
  ⟨subGo_id (replace_external_link site) exemptB
      (fun m cap hc => repl_id_of_exempt site m cap hc)
      exLocalhost.length exLocalhost rfl,
    subGo_id (replace_external_link site) exemptB
      (fun m cap hc => repl_id_of_exempt site m cap hc)
      exLoopback.length exLoopback rfl⟩

/-- C4, witness: the amended theorem instantiated at
`siteURL = "https://docs.example.com"`. -/
theorem C4_witness :
    annotate exLocalhost docsL = Except.ok exLocalhost ∧
      annotate exLoopback docsL = Except.ok exLoopback :=
  C4_loopback_exact docsL

/-- C5 (confirmed): with `siteURL = "https://docs.example.com"`,
`<a href="https://other.org/x">x</a>` maps to exactly
`<a target="_blank" rel="noopener noreferrer" href="https://other.org/x">x</a>`,
exhibiting the attribute order new-context directive, safety directive,
`href`, rest of the original tag. -/
theorem C5_external_annotation :
    annotate exExternal docsL = Except.ok annExternal :=
  rfl

/-- C6 (confirmed): each directive is inserted only when its marker
substring is absent from the matched tag: a tag containing both
`target=` and `rel=` is left unchanged by the insertion step, and the
`rel="nofollow"` example gains only the new-context directive and no
second `rel=`. -/
theorem C6_respects_existing_attributes :
    annotate exNofollow docsL = Except.ok annNofollow ∧
      ∀ m : List Char, containsSub m targetEq = true →
        containsSub m relEq = true → annotateTag m = m := by
  refine ⟨rfl, ?_⟩
  intro m h1 h2
  simp [annotateTag, h1, h2]

/-- C6, witness: the insertion step at a concrete tag that already
carries both attributes. -/
theorem C6_witness :
    containsSub mBothAttrs targetEq = true ∧
      containsSub mBothAttrs relEq = true ∧ annotateTag mBothAttrs = mBothAttrs :=
  ⟨rfl, rfl, C6_respects_existing_attributes.2 mBothAttrs rfl rfl⟩

/-- C7 (confirmed): when the href's authority equals the authority
parsed from `siteURL`, the tag is returned unchanged (for any
`site_url`, in particular non-empty ones), and the fully-qualified
self-link example passes through unchanged. -/
theorem C7_self_link_exemption :
    (∀ site m cap d : List Char, pyNetloc cap = Except.ok d →
        pyNetloc site = Except.ok d →
        replace_external_link site m cap = Except.ok m) ∧
      annotate exSelf docsL = Except.ok exSelf := by
  refine ⟨?_, rfl⟩
  intro site m cap d h1 h2
  simp only [replace_external_link, h1, h2]
  split
  · split
    · rw [if_neg (by simp)]
    · rfl
  · rfl

/-- C7, witness: the callback at the concrete self-link match. -/
theorem C7_witness :
    replace_external_link docsL mSelfTag selfCap = Except.ok mSelfTag :=
  C7_self_link_exemption.1 docsL mSelfTag selfCap domainD rfl rfl

/-- C8 (confirmed): an href with an empty authority component is never
annotated: the callback returns the matched tag unchanged for every
`siteURL`, and `<a href="../page/">p</a>` passes through byte-for-byte
for every `siteURL`. -/
theorem C8_no_authority_untouched :
    (∀ site m cap : List Char, pyNetloc cap = Except.ok [] →
        replace_external_link site m cap = Except.ok m) ∧
      ∀ site : List Char, annotate exRelative site = Except.ok exRelative :=
  ⟨repl_id_of_empty_netloc,
    fun site =>
      subGo_id (replace_external_link site) exemptB
        (fun m cap hc => repl_id_of_exempt site m cap hc)
        exRelative.length exRelative rfl⟩

/-- C8, witness: at the relative-link example with
`siteURL = "https://docs.example.com"`. -/
theorem C8_witness :
    replace_external_link docsL mRelTag relCap = Except.ok mRelTag ∧
      annotate exRelative docsL = Except.ok exRelative :=
  ⟨C8_no_authority_untouched.1 docsL mRelTag relCap rfl,
    C8_no_authority_untouched.2 docsL⟩

/-- C9 (confirmed): `on_page_content` depends only on `html` and the
`site_url` entry of `config`: two invocations with equal html and equal
`site_url` but arbitrary differing `page` and `files` arguments (and
arbitrary other config entries) return the same result. -/
theorem C9_noninterference {α β γ δ : Type} (html : List Char)
    (p1 : α) (f1 : β) (p2 : γ) (f2 : δ)
    (cfg1 cfg2 : String → Option String)
    (h : cfg1 siteUrlKey = cfg2 siteUrlKey) :
    on_page_content html p1 cfg1 f1 = on_page_content html p2 cfg2 f2 := by
  unfold on_page_content
  rw [h]

/-- C9, witness: concrete differing `page`, `files` and non-`site_url`
config entries. -/
theorem C9_witness :
    on_page_content exExternal (0 : Nat) cfgA true =
      on_page_content exExternal siteStr cfgB ([] : List Nat) :=
  C9_noninterference exExternal (0 : Nat) true siteStr ([] : List Nat)
    cfgA cfgB rfl

/-- C10 (confirmed): for every list (in particular every matched
external tag) and non-empty pattern, `str.replace` — the insertion step
of the source — substitutes its replacement text at every
(left-to-right, non-overlapping) occurrence of the pattern: the input
decomposes into pattern-free segments interleaved with the pattern, and
the output is the same interleaving with the replacement text in place
of the pattern.  Since each insertion string of the source is literally
directive ++ `href=`, each inserted directive is placed immediately
before every occurrence of `href=` in the tag, including occurrences
inside the quoted href value — the href value itself is rewritten, as
the concrete example shows end to end. -/
theorem C10_every_href_occurrence :
    (∀ s old new : List Char, old ≠ [] →
        joinSep old (splitPat s old).1 (splitPat s old).2 = s ∧
        containsSub (splitPat s old).1 old = false ∧
        (∀ seg ∈ (splitPat s old).2, containsSub seg old = false) ∧
        replaceAll s old new =
          joinSep new (splitPat s old).1 (splitPat s old).2) ∧
      targetIns = targetDir ++ hrefEq ∧ relIns = relDir ++ hrefEq ∧
      annotate exHrefTwice docsL = Except.ok annHrefTwice :=
  ⟨fun s old new hold =>
      splitPatGo_spec old new hold s.length s (Nat.le_refl s.length),
    rfl, rfl, rfl⟩

/-- C10, witness: the matched tag of the example has two `href=`
occurrences, and the target-directive insertion is their
interleaving with `target="_blank" href=`. -/
theorem C10_witness :
    (splitPat mHrefTwiceTag hrefEq).2.length = 2 ∧
      replaceAll mHrefTwiceTag hrefEq targetIns =
        joinSep targetIns (splitPat mHrefTwiceTag hrefEq).1
          (splitPat mHrefTwiceTag hrefEq).2 :=
  ⟨rfl,
    (C10_every_href_occurrence.1 mHrefTwiceTag hrefEq targetIns
        (by decide)).2.2.2⟩
